import Mathlib

/-!
Verification of the domain-blocking proxy's rule engine.

Strings are modelled as lists of characters (the Go code works on UTF-8
strings; domains and patterns are plain ASCII, so a character list is a
faithful model). Each definition below mirrors one function of the Go
source: the matcher constructors and Match methods of matcher.go, the
Blocker methods of blocker.go, and the CONNECT path of the proxy handler.
-/

abbrev Str := List Char

/-- Model of Go strings.ToLower (ASCII case folding, as used on domains). -/
def toLowerStr (s : Str) : Str := s.map Char.toLower

/-- Model of Go strings.TrimSpace: drop whitespace from both ends. -/
def trimSpace (s : Str) : Str :=
  ((s.dropWhile Char.isWhitespace).reverse.dropWhile Char.isWhitespace).reverse

/-- Model of Go strings.Contains: needle occurs as a contiguous substring. -/
def strContains (s needle : Str) : Bool :=
  match s with
  | [] => needle.isEmpty
  | _ :: t => needle.isPrefixOf s || strContains t needle

/-- Model of the port-stripping step of Blocker.IsBlocked: Go computes
strings.LastIndex(domain, ":") and, when it is not -1, keeps only the part
before that last colon; otherwise the string is unchanged. -/
def cutLast (s : Str) : Str :=
  match s.reverse.dropWhile (fun c => !(c == ':')) with
  | [] => s
  | _ :: t => t.reverse

/-- ExactMatcher of matcher.go: field domain. -/
structure ExactMatcher where
  domain : Str
deriving Repr, DecidableEq

/-- NewExactMatcher: stores ToLower(TrimSpace(domain)). -/
def NewExactMatcher (domain : Str) : ExactMatcher :=
  { domain := toLowerStr (trimSpace domain) }

/-- ExactMatcher.Match: exact match, or subdomain match via HasSuffix(domain, "." + m.domain). -/
def ExactMatcher.Match (m : ExactMatcher) (domain : Str) : Bool :=
  let d := toLowerStr (trimSpace domain)
  if d == m.domain then true
  else if ('.' :: m.domain).isSuffixOf d then true
  else false

/-- ExactMatcher.Pattern returns m.domain. -/
def ExactMatcher.Pattern (m : ExactMatcher) : Str := m.domain

/-- PrefixWildcardMatcher of matcher.go: fields pattern and suffix. -/
structure PrefixWildcardMatcher where
  pattern : Str
  suffix : Str
deriving Repr, DecidableEq

/-- NewPrefixWildcardMatcher: lower-cases and trims the pattern; when the
pattern starts with "*." the suffix is pattern[1:] (keeping the dot),
otherwise the suffix is empty. -/
def NewPrefixWildcardMatcher (pattern : Str) : PrefixWildcardMatcher :=
  let p := toLowerStr (trimSpace pattern)
  let suffix := if ['*', '.'].isPrefixOf p then p.drop 1 else []
  { pattern := p, suffix := suffix }

/-- PrefixWildcardMatcher.Match: empty suffix never matches; otherwise
HasSuffix(domain, m.suffix) and domain differs from m.suffix[1:]. -/
def PrefixWildcardMatcher.Match (m : PrefixWildcardMatcher) (domain : Str) : Bool :=
  let d := toLowerStr (trimSpace domain)
  if m.suffix == [] then false
  else m.suffix.isSuffixOf d && !(d == m.suffix.drop 1)

/-- PrefixWildcardMatcher.Pattern returns m.pattern. -/
def PrefixWildcardMatcher.Pattern (m : PrefixWildcardMatcher) : Str := m.pattern

/-- SuffixWildcardMatcher of matcher.go: fields pattern and prefix
(the Go field named prefix is called prefixStr here). -/
structure SuffixWildcardMatcher where
  pattern : Str
  prefixStr : Str
deriving Repr, DecidableEq

/-- NewSuffixWildcardMatcher: lower-cases and trims the pattern; when the
pattern ends with ".*" the stored prefix is pattern[:len(pattern)-1]
(keeping the dot), otherwise it is empty. -/
def NewSuffixWildcardMatcher (pattern : Str) : SuffixWildcardMatcher :=
  let p := toLowerStr (trimSpace pattern)
  let pre := if ['.', '*'].isSuffixOf p then p.take (p.length - 1) else []
  { pattern := p, prefixStr := pre }

/-- SuffixWildcardMatcher.Match: empty prefix never matches; if the domain
starts with the stored prefix the loop returns whether anything follows it;
otherwise it matches when the domain contains "." + prefix. -/
def SuffixWildcardMatcher.Match (m : SuffixWildcardMatcher) (domain : Str) : Bool :=
  let d := toLowerStr (trimSpace domain)
  if m.prefixStr == [] then false
  else if m.prefixStr.isPrefixOf d then decide (0 < (d.drop m.prefixStr.length).length)
  else if strContains d ('.' :: m.prefixStr) then true
  else false

/-- SuffixWildcardMatcher.Pattern returns m.pattern. -/
def SuffixWildcardMatcher.Pattern (m : SuffixWildcardMatcher) : Str := m.pattern

/-- DoubleWildcardMatcher of matcher.go: fields pattern and middle. -/
structure DoubleWildcardMatcher where
  pattern : Str
  middle : Str
deriving Repr, DecidableEq

/-- NewDoubleWildcardMatcher: lower-cases and trims the pattern; when the
pattern starts with "*." and ends with ".*" the middle is
pattern[1:len(pattern)-1] (keeping both dots), otherwise it is empty. -/
def NewDoubleWildcardMatcher (pattern : Str) : DoubleWildcardMatcher :=
  let p := toLowerStr (trimSpace pattern)
  let mid := if ['*', '.'].isPrefixOf p && ['.', '*'].isSuffixOf p
    then (p.drop 1).dropLast else []
  { pattern := p, middle := mid }

/-- DoubleWildcardMatcher.Match: empty middle never matches; otherwise the
domain matches when it contains the middle as a substring. -/
def DoubleWildcardMatcher.Match (m : DoubleWildcardMatcher) (domain : Str) : Bool :=
  let d := toLowerStr (trimSpace domain)
  if m.middle == [] then false
  else strContains d m.middle

/-- DoubleWildcardMatcher.Pattern returns m.pattern. -/
def DoubleWildcardMatcher.Pattern (m : DoubleWildcardMatcher) : Str := m.pattern

/-- The Matcher interface of matcher.go, as a sum of its four implementations. -/
inductive Matcher where
  | exact (m : ExactMatcher)
  | prefixWildcard (m : PrefixWildcardMatcher)
  | suffixWildcard (m : SuffixWildcardMatcher)
  | doubleWildcard (m : DoubleWildcardMatcher)
deriving Repr, DecidableEq

/-- Dynamic dispatch of Matcher.Match. -/
def Matcher.Match : Matcher → Str → Bool
  | .exact m, d => m.Match d
  | .prefixWildcard m, d => m.Match d
  | .suffixWildcard m, d => m.Match d
  | .doubleWildcard m, d => m.Match d

/-- Dynamic dispatch of Matcher.Pattern. -/
def Matcher.Pattern : Matcher → Str
  | .exact m => m.Pattern
  | .prefixWildcard m => m.Pattern
  | .suffixWildcard m => m.Pattern
  | .doubleWildcard m => m.Pattern

/-- CreateMatcher of matcher.go: trim, then test the "*." head and the
".*" tail independently and pick the variant. -/
def CreateMatcher (pattern : Str) : Matcher :=
  let p := trimSpace pattern
  let hasStarDot := ['*', '.'].isPrefixOf p
  let hasDotStar := ['.', '*'].isSuffixOf p
  if hasStarDot && hasDotStar then .doubleWildcard (NewDoubleWildcardMatcher p)
  else if hasStarDot then .prefixWildcard (NewPrefixWildcardMatcher p)
  else if hasDotStar then .suffixWildcard (NewSuffixWildcardMatcher p)
  else .exact (NewExactMatcher p)

/-- Two's-complement wraparound of an integer into the int64 range, the
overflow behaviour Go defines for its signed integer types. -/
def wrapInt64 (n : Int) : Int := (n + 2 ^ 63) % 2 ^ 64 - 2 ^ 63

/-- The Blocker struct of blocker.go. The two statistics counters are Go
int64 fields: they are modelled as integers on which every increment wraps
through wrapInt64; the sync primitives have no fields to model, mutation is
explicit state passing. -/
structure Blocker where
  matchers : List Matcher
  logBlocked : Bool
  logAllowed : Bool
  blockedCount : Int
  allowedCount : Int
deriving Repr, DecidableEq

/-- New of blocker.go. -/
def Blocker.New : Blocker :=
  { matchers := [], logBlocked := true, logAllowed := false
    blockedCount := 0, allowedCount := 0 }

/-- SetLogging of blocker.go. -/
def Blocker.SetLogging (b : Blocker) (logBlocked logAllowed : Bool) : Blocker :=
  { b with logBlocked := logBlocked, logAllowed := logAllowed }

/-- The compilation loop of UpdateBlacklist: trim each entry, skip the
blank ones, and compile the rest in order with CreateMatcher. -/
def compilePatterns (patterns : List Str) : List Matcher :=
  match patterns with
  | [] => []
  | p :: rest =>
    let t := trimSpace p
    if t == [] then compilePatterns rest
    else CreateMatcher t :: compilePatterns rest

/-- UpdateBlacklist of blocker.go: replace the matcher list wholesale. -/
def Blocker.UpdateBlacklist (b : Blocker) (patterns : List Str) : Blocker :=
  { b with matchers := compilePatterns patterns }

/-- recordBlocked of blocker.go: an int64 increment, which wraps at 2^63. -/
def Blocker.recordBlocked (b : Blocker) : Blocker :=
  { b with blockedCount := wrapInt64 (b.blockedCount + 1) }

/-- recordAllowed of blocker.go: an int64 increment, which wraps at 2^63. -/
def Blocker.recordAllowed (b : Blocker) : Blocker :=
  { b with allowedCount := wrapInt64 (b.allowedCount + 1) }

/-- Observable outcome of one IsBlocked call: the returned boolean, the
Pattern() text of the matcher that fired (reported in the BLOCKED log line
and, in the specification's terms, carried by the Blocked decision), and
the post state holding the updated counters. -/
structure DecideOut where
  blocked : Bool
  matched : Option Str
  post : Blocker
deriving Repr, DecidableEq

/-- The matcher loop of IsBlocked: first matcher that fires wins, its
Pattern() is reported and recordBlocked runs; if none fires, recordAllowed. -/
def decideLoop (b : Blocker) (ms : List Matcher) (d : Str) : DecideOut :=
  match ms with
  | [] => { blocked := false, matched := none, post := b.recordAllowed }
  | m :: rest =>
    if m.Match d then { blocked := true, matched := some m.Pattern, post := b.recordBlocked }
    else decideLoop b rest d

/-- IsBlocked of blocker.go: cut the input at its last colon when one is
present, lower-case and trim it, then run the matcher loop. -/
def Blocker.IsBlocked (b : Blocker) (domain : Str) : DecideOut :=
  decideLoop b b.matchers (toLowerStr (trimSpace (cutLast domain)))

/-- Stats of blocker.go. -/
def Blocker.Stats (b : Blocker) : Int × Int := (b.blockedCount, b.allowedCount)

/-- GetPatterns of blocker.go: the Pattern() text of each matcher, in order. -/
def Blocker.GetPatterns (b : Blocker) : List Str := b.matchers.map Matcher.Pattern

/-- Observable outcome of one CONNECT request in handler.go: the HTTP
status written to the client, whether net.DialTimeout was invoked and on
which target, and the rule-engine state after the embedded IsBlocked call. -/
structure ConnectResult where
  status : Nat
  dialed : Bool
  dialTarget : Option Str
  post : Blocker
deriving Repr, DecidableEq

/-- handleConnect of handler.go: r.Host is checked against the blocker
first; a blocked host answers 403 Forbidden and returns before any dial.
Otherwise the full host:port authority is dialed; the environment outcomes
of the dial and of the hijack are inputs of the model (dialOk, hijackOk). -/
def handleConnect (b : Blocker) (host : Str) (dialOk hijackOk : Bool) : ConnectResult :=
  let r := b.IsBlocked host
  if r.blocked then { status := 403, dialed := false, dialTarget := none, post := r.post }
  else if !dialOk then { status := 502, dialed := true, dialTarget := some host, post := r.post }
  else if !hijackOk then { status := 500, dialed := true, dialTarget := some host, post := r.post }
  else { status := 200, dialed := true, dialTarget := some host, post := r.post }

/-- The state-mutating operations of the Blocker API (Stats and GetPatterns
are pure reads and do not change the state). -/
inductive Op where
  | decide (domain : Str)
  | update (patterns : List Str)
  | setLogging (lb la : Bool)

/-- Effect of one operation on the Blocker state. -/
def applyOp (b : Blocker) : Op → Blocker
  | .decide d => (b.IsBlocked d).post
  | .update ps => b.UpdateBlacklist ps
  | .setLogging lb la => b.SetLogging lb la

/-- Run a sequence of operations from a starting state. -/
def runOps (b : Blocker) : List Op → Blocker
  | [] => b
  | op :: rest => runOps (applyOp b op) rest

/-- Count of (Blocked, Allowed) outcomes among the decide operations of a
sequence, evaluated at the state each call actually sees. -/
def countOutcomes (b : Blocker) : List Op → Nat × Nat
  | [] => (0, 0)
  | .decide d :: rest =>
    let r := b.IsBlocked d
    let n := countOutcomes r.post rest
    if r.blocked then (n.1 + 1, n.2) else (n.1, n.2 + 1)
  | .update ps :: rest => countOutcomes (b.UpdateBlacklist ps) rest
  | .setLogging lb la :: rest => countOutcomes (b.SetLogging lb la) rest

/-- Shared-memory state for the rule-set replacement race of blocker.go:
the shared matchers slice, the program counter of one UpdateBlacklist call
(upc), the program counter of one concurrent IsBlocked call (rpc), and the
rule set the reader observed while holding the read lock. With N compiled
matchers, upc 0 is before Lock(), 1 is holding the lock before the slice is
reset, 2 + k is holding the lock with k matchers appended, and 3 + N is
after Unlock(). rpc 0 is before RLock(), 1 is holding the read lock, 2 is
after reading the slice, 3 is after RUnlock(). -/
structure Sys where
  matchers : List Matcher
  upc : Nat
  rpc : Nat
  observed : Option (List Matcher)

/-- Initial state: the old rule set is installed, no lock is held. -/
def Sys.init (old : List Matcher) : Sys :=
  { matchers := old, upc := 0, rpc := 0, observed := none }

/-- Interleaved small-step semantics of one UpdateBlacklist(new) running
against one IsBlocked, under the sync.RWMutex discipline of blocker.go:
Lock() waits until no reader holds the read lock, RLock() waits until the
writer does not hold the lock, and the writer mutates the shared slice
(reset, then one append per compiled matcher) only while holding the lock. -/
inductive Step (new : List Matcher) : Sys → Sys → Prop where
  | uAcquire (s : Sys) : s.upc = 0 → s.rpc ≠ 1 → s.rpc ≠ 2 →
      Step new s { s with upc := 1 }
  | uClear (s : Sys) : s.upc = 1 →
      Step new s { s with matchers := [], upc := 2 }
  | uAppend (s : Sys) (k : Nat) (h : k < new.length) : s.upc = 2 + k →
      Step new s { s with matchers := s.matchers ++ [new.get ⟨k, h⟩], upc := 3 + k }
  | uRelease (s : Sys) : s.upc = 2 + new.length →
      Step new s { s with upc := 3 + new.length }
  | rAcquire (s : Sys) : s.rpc = 0 → ¬(1 ≤ s.upc ∧ s.upc ≤ 2 + new.length) →
      Step new s { s with rpc := 1 }
  | rObserve (s : Sys) : s.rpc = 1 →
      Step new s { s with observed := some s.matchers, rpc := 2 }
  | rRelease (s : Sys) : s.rpc = 2 →
      Step new s { s with rpc := 3 }

/-- Inductive invariant of the replacement race: the writer's progress
determines the shared slice exactly, the read lock excludes the writer,
and anything observed is the full old or the full new rule set. -/
def SysInv (old new : List Matcher) (s : Sys) : Prop :=
  s.upc ≤ 3 + new.length ∧
  (if s.upc ≤ 1 then s.matchers = old
   else if s.upc = 3 + new.length then s.matchers = new
   else s.matchers = new.take (s.upc - 2)) ∧
  ((1 ≤ s.upc ∧ s.upc ≤ 2 + new.length) → (s.rpc ≠ 1 ∧ s.rpc ≠ 2)) ∧
  (s.observed = none ∨ s.observed = some old ∨ s.observed = some new)

/-- Strings made of normalized domain characters: no whitespace, already
lower-case, and no colon. Patterns and candidate domains quantified over in
the specification's testable properties are of this shape. -/
def NormalStr (s : Str) : Prop :=
  ∀ c ∈ s, c.isWhitespace = false ∧ c.toLower = c ∧ c ≠ ':'

instance : DecidablePred NormalStr := fun s =>
  List.decidableBAll _ s

theorem normalStr_append {a b : Str} (ha : NormalStr a) (hb : NormalStr b) :
    NormalStr (a ++ b) :=
  List.forall_mem_append.mpr ⟨ha, hb⟩

theorem toLowerStr_eq_self {s : Str} (h : ∀ c ∈ s, c.toLower = c) :
    toLowerStr s = s := by
  unfold toLowerStr
  induction s with
  | nil => rfl
  | cons a t ih =>
    rw [List.map_cons, h a (List.mem_cons_self a t),
      ih fun c hc => h c (List.mem_cons_of_mem a hc)]

theorem dropWhile_eq_self_of_false {p : Char → Bool} {l : Str}
    (h : ∀ c ∈ l, p c = false) : l.dropWhile p = l := by
  cases l with
  | nil => rfl
  | cons a t => simp [List.dropWhile_cons, h a (by simp)]

theorem trimSpace_eq_self {s : Str} (h : ∀ c ∈ s, c.isWhitespace = false) :
    trimSpace s = s := by
  unfold trimSpace
  rw [dropWhile_eq_self_of_false h,
    dropWhile_eq_self_of_false (fun c hc => h c (List.mem_reverse.mp hc)),
    List.reverse_reverse]

theorem normalStr_trim {s : Str} (h : NormalStr s) : trimSpace s = s :=
  trimSpace_eq_self fun c hc => (h c hc).1

theorem normalStr_lower {s : Str} (h : NormalStr s) : toLowerStr s = s :=
  toLowerStr_eq_self fun c hc => (h c hc).2.1

theorem normalStr_lowerTrim {s : Str} (h : NormalStr s) :
    toLowerStr (trimSpace s) = s := by
  rw [normalStr_trim h, normalStr_lower h]

theorem normalStr_no_colon {s : Str} (h : NormalStr s) : ':' ∉ s :=
  fun hc => (h ':' hc).2.2 rfl

theorem cutLast_no_colon {s : Str} (h : ':' ∉ s) : cutLast s = s := by
  have h1 : List.dropWhile (fun c => !(c == ':')) s.reverse = [] := by
    rw [List.dropWhile_eq_nil_iff]
    intro c hc
    have hcne : c ≠ ':' := fun e => h (e ▸ List.mem_reverse.mp hc)
    simp [hcne]
  unfold cutLast
  rw [h1]

theorem cutLast_last_colon {h p : Str} (hp : ':' ∉ p) :
    cutLast (h ++ ':' :: p) = h := by
  have h1 : List.dropWhile (fun c => !(c == ':')) p.reverse = [] := by
    rw [List.dropWhile_eq_nil_iff]
    intro c hc
    have hcne : c ≠ ':' := fun e => hp (e ▸ List.mem_reverse.mp hc)
    simp [hcne]
  unfold cutLast
  rw [show (h ++ ':' :: p).reverse = p.reverse ++ ':' :: h.reverse by simp,
    List.dropWhile_append, h1]
  simp [List.dropWhile_cons]

theorem normalStr_cutLast {s : Str} (h : NormalStr s) : cutLast s = s :=
  cutLast_no_colon (normalStr_no_colon h)

theorem strContains_iff {s needle : Str} :
    strContains s needle = true ↔ needle <:+: s := by
  induction s with
  | nil =>
    simp only [strContains, List.isEmpty_iff]
    constructor
    · intro h
      exact h ▸ List.infix_refl []
    · intro h
      exact List.eq_nil_of_infix_nil h
  | cons a t ih =>
    simp only [strContains, Bool.or_eq_true, List.isPrefixOf_iff_prefix, ih,
      List.infix_cons_iff]

theorem dropWhile_idem {p : Char → Bool} {l : Str} :
    List.dropWhile p (l.dropWhile p) = l.dropWhile p := by
  induction l with
  | nil => rfl
  | cons a t ih =>
    by_cases hpa : p a = true
    · simp [List.dropWhile_cons, hpa, ih]
    · simp only [Bool.not_eq_true] at hpa
      simp [List.dropWhile_cons, hpa]

theorem dropWhile_eq_self_of_prefix {p : Char → Bool} {w l : Str}
    (hl : l.dropWhile p = l) (hw : w <+: l) : w.dropWhile p = w := by
  cases w with
  | nil => rfl
  | cons a w' =>
    obtain ⟨r, hr⟩ := hw
    cases l with
    | nil => simp at hr
    | cons b t =>
      have hab : a = b := by
        have := congrArg (List.head? ·) hr
        simpa using this
      subst hab
      have hpa : p a = false := by
        by_contra hc
        simp only [Bool.not_eq_false] at hc
        rw [List.dropWhile_cons, if_pos hc] at hl
        have := congrArg List.length hl
        have hle := (List.dropWhile_suffix (l := t) p).length_le
        simp at this
        omega
      simp [List.dropWhile_cons, hpa]

theorem trimSpace_idem (s : Str) : trimSpace (trimSpace s) = trimSpace s := by
  unfold trimSpace
  set u := s.dropWhile Char.isWhitespace with hu
  have hu1 : u.dropWhile Char.isWhitespace = u := dropWhile_idem
  set w := (u.reverse.dropWhile Char.isWhitespace).reverse with hw
  have hw1 : w.reverse = u.reverse.dropWhile Char.isWhitespace := by
    rw [hw, List.reverse_reverse]
  have hwrev : w.reverse.dropWhile Char.isWhitespace = w.reverse := by
    rw [hw1]
    exact dropWhile_idem
  have hwpre : w <+: u := by
    rw [← List.reverse_suffix]
    rw [hw1]
    exact List.dropWhile_suffix _
  have hw2 : w.dropWhile Char.isWhitespace = w :=
    dropWhile_eq_self_of_prefix hu1 hwpre
  rw [hw2, hwrev, List.reverse_reverse]

theorem decideLoop_find (b : Blocker) (ms : List Matcher) (d : Str) :
    (decideLoop b ms d).blocked = (ms.find? (fun m => m.Match d)).isSome ∧
    (decideLoop b ms d).matched = (ms.find? (fun m => m.Match d)).map Matcher.Pattern := by
  induction ms with
  | nil => simp [decideLoop]
  | cons m rest ih =>
    by_cases hm : m.Match d = true
    · simp [decideLoop, hm, List.find?_cons]
    · simp only [Bool.not_eq_true] at hm
      simpa [decideLoop, hm, List.find?_cons] using ih

theorem wrapInt64_eq_self {n : Int} (h1 : 0 ≤ n) (h2 : n < 2 ^ 63) :
    wrapInt64 n = n := by
  unfold wrapInt64
  omega

theorem decideLoop_counters (b : Blocker) (ms : List Matcher) (d : Str) :
    ((decideLoop b ms d).blocked = true →
      (decideLoop b ms d).post.blockedCount = wrapInt64 (b.blockedCount + 1) ∧
      (decideLoop b ms d).post.allowedCount = b.allowedCount) ∧
    ((decideLoop b ms d).blocked = false →
      (decideLoop b ms d).post.allowedCount = wrapInt64 (b.allowedCount + 1) ∧
      (decideLoop b ms d).post.blockedCount = b.blockedCount) := by
  induction ms with
  | nil => simp [decideLoop, Blocker.recordAllowed]
  | cons m rest ih =>
    by_cases hm : m.Match d = true
    · simp [decideLoop, hm, Blocker.recordBlocked]
    · simp only [Bool.not_eq_true] at hm
      simpa [decideLoop, hm] using ih

theorem compilePatterns_single {pat : Str} (hp : trimSpace pat = pat) (hne : pat ≠ []) :
    compilePatterns [pat] = [CreateMatcher pat] := by
  simp [compilePatterns, hp, hne]

theorem isBlocked_single {pat d : Str} (hp : trimSpace pat = pat) (hne : pat ≠ [])
    (hd : toLowerStr (trimSpace (cutLast d)) = d) :
    ((Blocker.New.UpdateBlacklist [pat]).IsBlocked d).blocked
      = (CreateMatcher pat).Match d := by
  simp only [Blocker.IsBlocked, Blocker.UpdateBlacklist, compilePatterns_single hp hne, hd]
  by_cases hm : (CreateMatcher pat).Match d = true
  · simp [decideLoop, hm]
  · simp only [Bool.not_eq_true] at hm
    simp [decideLoop, hm]

theorem exactMatch_iff {X d : Str} (hd : toLowerStr (trimSpace d) = d) :
    (ExactMatcher.Match ⟨X⟩ d = true) ↔ (d = X ∨ ('.' :: X) <:+ d) := by
  by_cases h1 : d = X
  · subst h1
    simp [ExactMatcher.Match, hd]
  · have hb : (d == X) = false := beq_eq_false_iff_ne.mpr h1
    simp [ExactMatcher.Match, hd, hb, h1, List.isSuffixOf_iff_suffix]

theorem prefixWildcardMatch_iff {p X d : Str} (hd : toLowerStr (trimSpace d) = d) :
    (PrefixWildcardMatcher.Match ⟨p, '.' :: X⟩ d = true) ↔
      ((('.' :: X) <:+ d) ∧ d ≠ X) := by
  simp [PrefixWildcardMatcher.Match, hd, List.isSuffixOf_iff_suffix]

theorem suffixWildcardMatch_iff {p X d : Str} (hd : toLowerStr (trimSpace d) = d) :
    (SuffixWildcardMatcher.Match ⟨p, X ++ ['.']⟩ d = true) ↔
      (((X ++ ['.']) <+: d ∧ X.length + 1 < d.length) ∨ ('.' :: (X ++ ['.'])) <:+: d) := by
  have hne : (X ++ ['.'] == ([] : Str)) = false := by simp
  by_cases hpre : (X ++ ['.']) <+: d
  · have hb : (X ++ ['.']).isPrefixOf d = true := List.isPrefixOf_iff_prefix.mpr hpre
    simp only [SuffixWildcardMatcher.Match, hd, hne, Bool.false_eq_true, if_false, hb,
      if_true, decide_eq_true_eq, List.length_drop, List.length_append,
      List.length_cons, List.length_nil]
    constructor
    · intro h0
      exact Or.inl ⟨hpre, by omega⟩
    · rintro (⟨_, hlt⟩ | hinf)
      · omega
      · have hle := hinf.length_le
        simp at hle
        omega
  · have hb : (X ++ ['.']).isPrefixOf d = false := by
      cases hcb : (X ++ ['.']).isPrefixOf d
      · rfl
      · exact absurd (List.isPrefixOf_iff_prefix.mp hcb) hpre
    simp [SuffixWildcardMatcher.Match, hd, hne, hb, strContains_iff, hpre]

theorem doubleWildcardMatch_iff {p X d : Str} (hd : toLowerStr (trimSpace d) = d) :
    (DoubleWildcardMatcher.Match ⟨p, '.' :: (X ++ ['.'])⟩ d = true) ↔
      (('.' :: (X ++ ['.'])) <:+: d) := by
  simp [DoubleWildcardMatcher.Match, hd, strContains_iff]

theorem isPrefixOf_false_of_not {a b : Str} (h : ¬ a <+: b) : a.isPrefixOf b = false := by
  cases hcb : a.isPrefixOf b
  · rfl
  · exact absurd (List.isPrefixOf_iff_prefix.mp hcb) h

theorem isSuffixOf_false_of_not {a b : Str} (h : ¬ a <:+ b) : a.isSuffixOf b = false := by
  cases hcb : a.isSuffixOf b
  · rfl
  · exact absurd (List.isSuffixOf_iff_suffix.mp hcb) h

theorem createMatcher_exact_form {X : Str} (hX : NormalStr X)
    (h1 : ¬ (['*', '.'] <+: X)) (h2 : ¬ (['.', '*'] <:+ X)) :
    CreateMatcher X = .exact ⟨X⟩ := by
  simp only [CreateMatcher, normalStr_trim hX, isPrefixOf_false_of_not h1,
    isSuffixOf_false_of_not h2, Bool.false_and, Bool.false_eq_true, if_false,
    NewExactMatcher, normalStr_trim hX, normalStr_lower hX]

theorem createMatcher_starDot_form {X : Str} (hX : NormalStr X)
    (h2 : ¬ (['.', '*'] <:+ ('*' :: '.' :: X))) :
    CreateMatcher ('*' :: '.' :: X) = .prefixWildcard ⟨'*' :: '.' :: X, '.' :: X⟩ := by
  have hN : NormalStr ('*' :: '.' :: X) := normalStr_append (a := ['*', '.']) (by decide) hX
  have h1 : (['*', '.'] : Str).isPrefixOf ('*' :: '.' :: X) = true := by
    simp [List.isPrefixOf]
  simp only [CreateMatcher, normalStr_trim hN, h1, isSuffixOf_false_of_not h2,
    Bool.true_and, Bool.false_eq_true, if_false, if_true,
    NewPrefixWildcardMatcher, normalStr_lower hN, List.drop_succ_cons, List.drop_zero]

theorem createMatcher_dotStar_form {X : Str} (hX : NormalStr X)
    (h1 : ¬ (['*', '.'] <+: (X ++ ['.', '*']))) :
    CreateMatcher (X ++ ['.', '*']) = .suffixWildcard ⟨X ++ ['.', '*'], X ++ ['.']⟩ := by
  have hN : NormalStr (X ++ ['.', '*']) := normalStr_append hX (by decide)
  have h2 : (['.', '*'] : Str).isSuffixOf (X ++ ['.', '*']) = true :=
    List.isSuffixOf_iff_suffix.mpr ⟨X, rfl⟩
  have htake : (X ++ ['.', '*']).take ((X ++ ['.', '*']).length - 1) = X ++ ['.'] := by
    have hsplit : X ++ ['.', '*'] = (X ++ ['.']) ++ ['*'] := by simp
    rw [hsplit]
    have hlen : ((X ++ ['.']) ++ ['*']).length - 1 = (X ++ ['.']).length := by
      simp
    rw [hlen, List.take_left]
  simp only [CreateMatcher, normalStr_trim hN, h2, isPrefixOf_false_of_not h1,
    Bool.false_and, Bool.false_eq_true, if_false, if_true,
    NewSuffixWildcardMatcher, normalStr_lower hN, htake]

theorem createMatcher_double_form {X : Str} (hX : NormalStr X) :
    CreateMatcher ('*' :: '.' :: (X ++ ['.', '*']))
      = .doubleWildcard ⟨'*' :: '.' :: (X ++ ['.', '*']), '.' :: (X ++ ['.'])⟩ := by
  have hN : NormalStr ('*' :: '.' :: (X ++ ['.', '*'])) :=
    normalStr_append (a := ['*', '.']) (by decide) (normalStr_append hX (by decide))
  have h1 : (['*', '.'] : Str).isPrefixOf ('*' :: '.' :: (X ++ ['.', '*'])) = true := by
    simp [List.isPrefixOf]
  have h2 : (['.', '*'] : Str).isSuffixOf ('*' :: '.' :: (X ++ ['.', '*'])) = true :=
    List.isSuffixOf_iff_suffix.mpr ⟨'*' :: '.' :: X, by simp⟩
  have hmid : (('*' :: '.' :: (X ++ ['.', '*'])).drop 1).dropLast = '.' :: (X ++ ['.']) := by
    rw [List.drop_succ_cons, List.drop_zero,
      show '.' :: (X ++ ['.', '*']) = ('.' :: (X ++ ['.'])) ++ ['*'] by simp,
      List.dropLast_concat]
  simp only [CreateMatcher, normalStr_trim hN, h1, h2, Bool.true_and, if_true,
    NewDoubleWildcardMatcher, normalStr_lower hN, hmid]

theorem not_suffix_of_count_lt {a b : Str} (h : List.count '.' b < List.count '.' a) :
    ¬ a <:+ b :=
  fun hs => absurd (hs.sublist.count_le '.') (by omega)

theorem not_infix_of_count_lt {a b : Str} (h : List.count '.' b < List.count '.' a) :
    ¬ a <:+: b :=
  fun hs => absurd (hs.sublist.count_le '.') (by omega)

theorem notPre : ∀ (X r : Str),
    X ++ '.' :: r ≠ 'n' :: 'o' :: 't' :: (X ++ '.' :: 'c' :: 'o' :: 'm' :: [])
  | [], r => by
    intro h
    injection h with h1 _
    exact absurd h1 (by decide)
  | [a], r => by
    intro h
    injection h with _ h
    injection h with h2 _
    exact absurd h2 (by decide)
  | [a, b], r => by
    intro h
    injection h with _ h
    injection h with _ h
    injection h with h3 _
    exact absurd h3 (by decide)
  | a :: b :: c :: Y, r => by
    intro h
    simp only [List.cons_append, List.cons.injEq] at h
    obtain ⟨rfl, rfl, rfl, h4⟩ := h
    exact notPre Y r h4

/-- Claim C2, amended. For every pattern without wildcards, compiled as
Exact(domain), and every normalized candidate d: the matcher matches d iff
d equals domain or d ends with "." + domain; Decide of X and of sub.X are
Blocked and Decide of notX is Allowed under blacklist containing X alone;
Decide of X.other is Allowed provided X.other does not itself end with
"." + X (the original claim omitted this proviso, which fails for
X = other, see the counterexample). -/
theorem claim2_exact_semantics (X : Str) (hX : NormalStr X) (hne : X ≠ [])
    (h1 : ¬ (['*', '.'] <+: X)) (h2 : ¬ (['.', '*'] <:+ X)) :
    (∀ d : Str, toLowerStr (trimSpace d) = d →
      ((CreateMatcher X).Match d = true ↔ (d = X ∨ ('.' :: X) <:+ d))) ∧
    ((Blocker.New.UpdateBlacklist [X]).IsBlocked X).blocked = true ∧
    ((Blocker.New.UpdateBlacklist [X]).IsBlocked (("sub.").data ++ X)).blocked = true ∧
    ((Blocker.New.UpdateBlacklist [X]).IsBlocked (("not").data ++ X)).blocked = false ∧
    (¬ (('.' :: X) <:+ (X ++ (".other").data)) →
      ((Blocker.New.UpdateBlacklist [X]).IsBlocked (X ++ (".other").data)).blocked = false) := by
  have hCM := createMatcher_exact_form hX h1 h2
  have key : ∀ d : Str, toLowerStr (trimSpace d) = d →
      ((CreateMatcher X).Match d = true ↔ (d = X ∨ ('.' :: X) <:+ d)) := by
    intro d hd
    rw [hCM]
    exact exactMatch_iff hd
  have hBlk : ∀ d : Str, NormalStr d →
      (((Blocker.New.UpdateBlacklist [X]).IsBlocked d).blocked = true
        ↔ (d = X ∨ ('.' :: X) <:+ d)) := by
    intro d hdN
    rw [isBlocked_single (normalStr_trim hX) hne
      (by rw [normalStr_cutLast hdN, normalStr_lowerTrim hdN])]
    exact key d (normalStr_lowerTrim hdN)
  refine ⟨key, ?_, ?_, ?_, ?_⟩
  · exact (hBlk X hX).mpr (Or.inl rfl)
  · exact (hBlk (("sub.").data ++ X)
      (normalStr_append (by decide) hX)).mpr (Or.inr ⟨['s', 'u', 'b'], rfl⟩)
  · rw [← Bool.not_eq_true, hBlk (("not").data ++ X) (normalStr_append (by decide) hX)]
    rintro (heq | hsuf)
    · have := congrArg List.length heq
      simp at this
      omega
    · exact not_suffix_of_count_lt
        (by simp [List.count_append, List.count_cons]) hsuf
  · intro hno
    rw [← Bool.not_eq_true, hBlk (X ++ (".other").data)
      (normalStr_append hX (by decide))]
    rintro (heq | hsuf)
    · have := congrArg List.length heq
      simp at this
    · exact hno hsuf

/-- Claim C2 counterexample: the claim states that under blacklist
containing exactly the wildcard-free pattern X, Decide of X.other is
Allowed; for X = other the candidate other.other ends with ".other" and is
Blocked by the auto-subdomain rule of ExactMatcher.Match. -/
theorem claim2_counterexample :
    ((Blocker.New.UpdateBlacklist [("other").data]).IsBlocked
      (("other.other").data)).blocked = true := by decide

/-- Claim C2 witness at a concrete input. -/
theorem claim2_witness :
    ((Blocker.New.UpdateBlacklist [("facebook.com").data]).IsBlocked
      (("facebook.com").data ++ (".other").data)).blocked = false :=
  (claim2_exact_semantics (("facebook.com").data) (by decide) (by decide)
    (by decide) (by decide)).2.2.2.2 (by decide)

/-- Claim C3. For every pattern of the form "*.X" (leading "*.", no
trailing ".*") and every normalized candidate d, the compiled matcher
matches d iff d ends with ".X" and d is not X itself; under blacklist
containing exactly "*.X", Decide of X is Allowed while Decide of a.X and
of a.b.X are Blocked. -/
theorem claim3_prefix_wildcard_semantics (X : Str) (hX : NormalStr X)
    (h2 : ¬ (['.', '*'] <:+ ('*' :: '.' :: X))) :
    (∀ d : Str, toLowerStr (trimSpace d) = d →
      ((CreateMatcher ('*' :: '.' :: X)).Match d = true ↔ ((('.' :: X) <:+ d) ∧ d ≠ X))) ∧
    ((Blocker.New.UpdateBlacklist ['*' :: '.' :: X]).IsBlocked X).blocked = false ∧
    ((Blocker.New.UpdateBlacklist ['*' :: '.' :: X]).IsBlocked
      (("a.").data ++ X)).blocked = true ∧
    ((Blocker.New.UpdateBlacklist ['*' :: '.' :: X]).IsBlocked
      (("a.b.").data ++ X)).blocked = true := by
  have hXp : NormalStr ('*' :: '.' :: X) := normalStr_append (a := ['*', '.']) (by decide) hX
  have hCM := createMatcher_starDot_form hX h2
  have key : ∀ d : Str, toLowerStr (trimSpace d) = d →
      ((CreateMatcher ('*' :: '.' :: X)).Match d = true ↔ ((('.' :: X) <:+ d) ∧ d ≠ X)) := by
    intro d hd
    rw [hCM]
    exact prefixWildcardMatch_iff hd
  have hBlk : ∀ d : Str, NormalStr d →
      (((Blocker.New.UpdateBlacklist ['*' :: '.' :: X]).IsBlocked d).blocked = true
        ↔ ((('.' :: X) <:+ d) ∧ d ≠ X)) := by
    intro d hdN
    rw [isBlocked_single (normalStr_trim hXp) (by simp)
      (by rw [normalStr_cutLast hdN, normalStr_lowerTrim hdN])]
    exact key d (normalStr_lowerTrim hdN)
  refine ⟨key, ?_, ?_, ?_⟩
  · rw [← Bool.not_eq_true, hBlk X hX]
    rintro ⟨hsuf, -⟩
    exact not_suffix_of_count_lt (by simp [List.count_cons]) hsuf
  · refine (hBlk (("a.").data ++ X) (normalStr_append (by decide) hX)).mpr
      ⟨⟨['a'], rfl⟩, ?_⟩
    intro heq
    have := congrArg List.length heq
    simp at this
    omega
  · refine (hBlk (("a.b.").data ++ X) (normalStr_append (by decide) hX)).mpr
      ⟨⟨['a', '.', 'b'], rfl⟩, ?_⟩
    intro heq
    have := congrArg List.length heq
    simp at this
    omega

/-- Claim C3 witness at a concrete input. -/
theorem claim3_witness :
    ((Blocker.New.UpdateBlacklist ['*' :: '.' :: ("example.com").data]).IsBlocked
      (("a.").data ++ ("example.com").data)).blocked = true :=
  (claim3_prefix_wildcard_semantics (("example.com").data) (by decide)
    (by decide)).2.2.1

/-- Claim C4. For every pattern of the form "X.*" (trailing ".*", no
leading "*."), and every normalized candidate d: the compiled matcher
matches d iff d starts with "X." followed by at least one more character,
or d contains ".X." as a substring; under blacklist containing exactly
"X.*", Decide of X.com, X.de and www.X.com are Blocked and Decide of
notX.com is Allowed. -/
theorem claim4_suffix_wildcard_semantics (X : Str) (hX : NormalStr X)
    (h1 : ¬ (['*', '.'] <+: (X ++ ['.', '*']))) :
    (∀ d : Str, toLowerStr (trimSpace d) = d →
      ((CreateMatcher (X ++ ['.', '*'])).Match d = true ↔
        (((X ++ ['.']) <+: d ∧ X.length + 1 < d.length) ∨ ('.' :: (X ++ ['.'])) <:+: d))) ∧
    ((Blocker.New.UpdateBlacklist [X ++ ['.', '*']]).IsBlocked
      (X ++ (".com").data)).blocked = true ∧
    ((Blocker.New.UpdateBlacklist [X ++ ['.', '*']]).IsBlocked
      (X ++ (".de").data)).blocked = true ∧
    ((Blocker.New.UpdateBlacklist [X ++ ['.', '*']]).IsBlocked
      (("www.").data ++ X ++ (".com").data)).blocked = true ∧
    ((Blocker.New.UpdateBlacklist [X ++ ['.', '*']]).IsBlocked
      (("not").data ++ X ++ (".com").data)).blocked = false := by
  have hXp : NormalStr (X ++ ['.', '*']) := normalStr_append hX (by decide)
  have hCM := createMatcher_dotStar_form hX h1
  have key : ∀ d : Str, toLowerStr (trimSpace d) = d →
      ((CreateMatcher (X ++ ['.', '*'])).Match d = true ↔
        (((X ++ ['.']) <+: d ∧ X.length + 1 < d.length) ∨ ('.' :: (X ++ ['.'])) <:+: d)) := by
    intro d hd
    rw [hCM]
    exact suffixWildcardMatch_iff hd
  have hBlk : ∀ d : Str, NormalStr d →
      (((Blocker.New.UpdateBlacklist [X ++ ['.', '*']]).IsBlocked d).blocked = true
        ↔ (((X ++ ['.']) <+: d ∧ X.length + 1 < d.length) ∨ ('.' :: (X ++ ['.'])) <:+: d)) := by
    intro d hdN
    rw [isBlocked_single (normalStr_trim hXp) (by simp)
      (by rw [normalStr_cutLast hdN, normalStr_lowerTrim hdN])]
    exact key d (normalStr_lowerTrim hdN)
  refine ⟨key, ?_, ?_, ?_, ?_⟩
  · refine (hBlk (X ++ (".com").data) (normalStr_append hX (by decide))).mpr
      (Or.inl ⟨⟨['c', 'o', 'm'], by simp⟩, by simp⟩)
  · refine (hBlk (X ++ (".de").data) (normalStr_append hX (by decide))).mpr
      (Or.inl ⟨⟨['d', 'e'], by simp⟩, by simp⟩)
  · refine (hBlk (("www.").data ++ X ++ (".com").data)
      (normalStr_append (normalStr_append (by decide) hX) (by decide))).mpr
      (Or.inr ⟨['w', 'w', 'w'], ['c', 'o', 'm'], by simp⟩)
  · rw [← Bool.not_eq_true, hBlk (("not").data ++ X ++ (".com").data)
      (normalStr_append (normalStr_append (by decide) hX) (by decide))]
    rintro (⟨hpre, -⟩ | hinf)
    · obtain ⟨r, hr⟩ := hpre
      rw [List.append_assoc] at hr
      exact notPre X r hr
    · exact not_infix_of_count_lt
        (by simp [List.count_append, List.count_cons]) hinf

/-- Claim C4 witness at a concrete input. -/
theorem claim4_witness :
    ((Blocker.New.UpdateBlacklist [("google").data ++ ['.', '*']]).IsBlocked
      (("google").data ++ (".de").data)).blocked = true :=
  (claim4_suffix_wildcard_semantics (("google").data) (by decide) (by decide)).2.2.1

/-- Claim C5. For every pattern of the form "*.X.*" and every normalized
candidate d: the compiled matcher matches d iff d contains the literal
substring ".X."; under blacklist containing exactly "*.X.*", Decide of
a.X.b is Blocked while Decide of X.b and of notX.b are Allowed. Moreover
classification in CreateMatcher is total and exclusive: the "*." head test
and the ".*" tail test of the trimmed pattern select DoubleWildcard,
PrefixWildcard, SuffixWildcard or Exact exactly as the claim states. -/
theorem claim5_double_wildcard_semantics (X : Str) (hX : NormalStr X) :
    (∀ d : Str, toLowerStr (trimSpace d) = d →
      ((CreateMatcher ('*' :: '.' :: (X ++ ['.', '*']))).Match d = true ↔
        ('.' :: (X ++ ['.'])) <:+: d)) ∧
    ((Blocker.New.UpdateBlacklist ['*' :: '.' :: (X ++ ['.', '*'])]).IsBlocked
      (("a.").data ++ X ++ (".b").data)).blocked = true ∧
    ((Blocker.New.UpdateBlacklist ['*' :: '.' :: (X ++ ['.', '*'])]).IsBlocked
      (X ++ (".b").data)).blocked = false ∧
    ((Blocker.New.UpdateBlacklist ['*' :: '.' :: (X ++ ['.', '*'])]).IsBlocked
      (("not").data ++ X ++ (".b").data)).blocked = false ∧
    (∀ pat : Str,
      ((['*', '.'] <+: trimSpace pat) → (['.', '*'] <:+ trimSpace pat) →
        ∃ m, CreateMatcher pat = .doubleWildcard m) ∧
      ((['*', '.'] <+: trimSpace pat) → ¬ (['.', '*'] <:+ trimSpace pat) →
        ∃ m, CreateMatcher pat = .prefixWildcard m) ∧
      (¬ (['*', '.'] <+: trimSpace pat) → (['.', '*'] <:+ trimSpace pat) →
        ∃ m, CreateMatcher pat = .suffixWildcard m) ∧
      (¬ (['*', '.'] <+: trimSpace pat) → ¬ (['.', '*'] <:+ trimSpace pat) →
        ∃ m, CreateMatcher pat = .exact m)) := by
  have hXp : NormalStr ('*' :: '.' :: (X ++ ['.', '*'])) :=
    normalStr_append (a := ['*', '.']) (by decide) (normalStr_append hX (by decide))
  have hCM := createMatcher_double_form hX
  have key : ∀ d : Str, toLowerStr (trimSpace d) = d →
      ((CreateMatcher ('*' :: '.' :: (X ++ ['.', '*']))).Match d = true ↔
        ('.' :: (X ++ ['.'])) <:+: d) := by
    intro d hd
    rw [hCM]
    exact doubleWildcardMatch_iff hd
  have hBlk : ∀ d : Str, NormalStr d →
      (((Blocker.New.UpdateBlacklist ['*' :: '.' :: (X ++ ['.', '*'])]).IsBlocked d).blocked
        = true ↔ ('.' :: (X ++ ['.'])) <:+: d) := by
    intro d hdN
    rw [isBlocked_single (normalStr_trim hXp) (by simp)
      (by rw [normalStr_cutLast hdN, normalStr_lowerTrim hdN])]
    exact key d (normalStr_lowerTrim hdN)
  refine ⟨key, ?_, ?_, ?_, ?_⟩
  · exact (hBlk (("a.").data ++ X ++ (".b").data)
      (normalStr_append (normalStr_append (by decide) hX) (by decide))).mpr
      ⟨['a'], ['b'], by simp⟩
  · rw [← Bool.not_eq_true, hBlk (X ++ (".b").data) (normalStr_append hX (by decide))]
    exact not_infix_of_count_lt (by simp [List.count_append, List.count_cons])
  · rw [← Bool.not_eq_true, hBlk (("not").data ++ X ++ (".b").data)
      (normalStr_append (normalStr_append (by decide) hX) (by decide))]
    exact not_infix_of_count_lt (by simp [List.count_append, List.count_cons])
  · intro pat
    refine ⟨fun hp hs => ?_, fun hp hs => ?_, fun hp hs => ?_, fun hp hs => ?_⟩
    · exact ⟨NewDoubleWildcardMatcher (trimSpace pat),
        by simp [CreateMatcher, List.isPrefixOf_iff_prefix.mpr hp,
          List.isSuffixOf_iff_suffix.mpr hs]⟩
    · exact ⟨NewPrefixWildcardMatcher (trimSpace pat),
        by simp [CreateMatcher, List.isPrefixOf_iff_prefix.mpr hp,
          isSuffixOf_false_of_not hs]⟩
    · exact ⟨NewSuffixWildcardMatcher (trimSpace pat),
        by simp [CreateMatcher, isPrefixOf_false_of_not hp,
          List.isSuffixOf_iff_suffix.mpr hs]⟩
    · exact ⟨NewExactMatcher (trimSpace pat),
        by simp [CreateMatcher, isPrefixOf_false_of_not hp,
          isSuffixOf_false_of_not hs]⟩

/-- Claim C5 witness at a concrete input. -/
theorem claim5_witness :
    ((Blocker.New.UpdateBlacklist ['*' :: '.' :: (("google").data ++ ['.', '*'])]).IsBlocked
      (("a.").data ++ ("google").data ++ (".b").data)).blocked = true :=
  (claim5_double_wildcard_semantics (("google").data) (by decide)).2.1

/-- Claim C1. IsBlocked first normalizes its input (cut at the last colon,
which on a host with a trailing port strips that port and leaves a
colon-free input unchanged, then lower-case and trim), then tests the
compiled matchers in list order: the result is Blocked with the first
matching matcher's Pattern() text, captured by List.find? over the matcher
list, and Allowed when no matcher matches. -/
theorem claim1_decide_first_match (b : Blocker) (domain : Str) :
    ((b.IsBlocked domain).blocked
      = (b.matchers.find? (fun m => m.Match (toLowerStr (trimSpace (cutLast domain))))).isSome) ∧
    ((b.IsBlocked domain).matched
      = (b.matchers.find? (fun m =>
          m.Match (toLowerStr (trimSpace (cutLast domain))))).map Matcher.Pattern) ∧
    (∀ hst prt : Str, ':' ∉ prt → cutLast (hst ++ ':' :: prt) = hst) ∧
    (':' ∉ domain → cutLast domain = domain) :=
  ⟨(decideLoop_find b b.matchers _).1, (decideLoop_find b b.matchers _).2,
    fun _ _ hc => cutLast_last_colon hc, fun hc => cutLast_no_colon hc⟩

/-- Claim C1 witness at a concrete input. -/
theorem claim1_witness :
    cutLast (("example.com").data ++ ':' :: ("8080").data) = ("example.com").data :=
  (claim1_decide_first_match Blocker.New []).2.2.1
    (("example.com").data) (("8080").data) (by decide)

theorem pattern_createMatcher (t : Str) (ht : trimSpace t = t) :
    (CreateMatcher t).Pattern = toLowerStr t := by
  unfold CreateMatcher
  rw [ht]
  by_cases hb1 : (['*', '.'] : Str).isPrefixOf t = true
  · by_cases hb2 : (['.', '*'] : Str).isSuffixOf t = true
    · simp [hb1, hb2, NewDoubleWildcardMatcher, Matcher.Pattern,
        DoubleWildcardMatcher.Pattern, ht]
    · simp only [Bool.not_eq_true] at hb2
      simp [hb1, hb2, NewPrefixWildcardMatcher, Matcher.Pattern,
        PrefixWildcardMatcher.Pattern, ht]
  · simp only [Bool.not_eq_true] at hb1
    by_cases hb2 : (['.', '*'] : Str).isSuffixOf t = true
    · simp [hb1, hb2, NewSuffixWildcardMatcher, Matcher.Pattern,
        SuffixWildcardMatcher.Pattern, ht]
    · simp only [Bool.not_eq_true] at hb2
      simp [hb1, hb2, NewExactMatcher, Matcher.Pattern, ExactMatcher.Pattern, ht]

/-- Claim C8, amended. After UpdateBlacklist, GetPatterns returns the
trimmed, lower-cased text of each non-blank entry of the input list, in
the same order, one element per compiled matcher. The original claim said
the original text is returned; the matcher constructors lower-case the
stored pattern, so case is not preserved (see the counterexample). -/
theorem claim8_get_patterns (b : Blocker) (ps : List Str) :
    (b.UpdateBlacklist ps).GetPatterns
      = ps.filterMap (fun p =>
          if trimSpace p = [] then none else some (toLowerStr (trimSpace p))) := by
  simp only [Blocker.GetPatterns, Blocker.UpdateBlacklist]
  induction ps with
  | nil => simp [compilePatterns]
  | cons p rest ih =>
    by_cases hp : trimSpace p = []
    · simp [compilePatterns, hp, ih]
    · simp [compilePatterns, hp, ih, pattern_createMatcher (trimSpace p) (trimSpace_idem p)]

/-- Claim C8 counterexample: GetPatterns does not return the original
text of a mixed-case entry. -/
theorem claim8_counterexample :
    (Blocker.New.UpdateBlacklist [("FaceBook.Com").data]).GetPatterns
      ≠ [("FaceBook.Com").data] := by decide

/-- Claim C10. On every input with at least one colon, written as
hst ++ ":" ++ prt with prt colon-free, IsBlocked truncates at that last
colon and matches only the part before it, whether or not prt is a numeric
port; in particular the bare IPv6 literal "::1" is cut down to ":". -/
theorem claim10_port_strip (b : Blocker) (hst prt : Str) (hc : ':' ∉ prt) :
    b.IsBlocked (hst ++ ':' :: prt)
      = decideLoop b b.matchers (toLowerStr (trimSpace hst)) ∧
    cutLast (hst ++ ':' :: prt) = hst ∧
    cutLast (("::1").data) = ((":").data) := by
  refine ⟨?_, cutLast_last_colon hc, by decide⟩
  rw [Blocker.IsBlocked, cutLast_last_colon hc]

/-- Claim C10 witness at a concrete input. -/
theorem claim10_witness :
    cutLast (("example.com").data ++ ':' :: ("notaport").data) = ("example.com").data :=
  (claim10_port_strip Blocker.New (("example.com").data) (("notaport").data)
    (by decide)).2.1

/-- Claim C7. A CONNECT request whose host is Blocked is answered with 403
and returns before any dial (no outbound connection, no dial target); in
the Allowed case the dial target is the full host:port authority, while
the block decision itself is taken on the host with the trailing
colon-segment stripped. -/
theorem claim7_connect_blocked (b : Blocker) (host : Str) (dialOk hijackOk : Bool) :
    (((b.IsBlocked host).blocked = true) →
      ((handleConnect b host dialOk hijackOk).status = 403 ∧
       (handleConnect b host dialOk hijackOk).dialed = false ∧
       (handleConnect b host dialOk hijackOk).dialTarget = none)) ∧
    (((b.IsBlocked host).blocked = false) →
      ((handleConnect b host dialOk hijackOk).dialTarget = some host ∧
       (handleConnect b host dialOk hijackOk).dialed = true)) ∧
    (∀ hst prt : Str, ':' ∉ prt →
      b.IsBlocked (hst ++ ':' :: prt)
        = decideLoop b b.matchers (toLowerStr (trimSpace hst))) := by
  refine ⟨fun hbl => ?_, fun hbl => ?_, fun hst prt hc => ?_⟩
  · simp [handleConnect, hbl]
  · cases dialOk <;> cases hijackOk <;> simp [handleConnect, hbl]
  · rw [Blocker.IsBlocked, cutLast_last_colon hc]

/-- Claim C7 witness at a concrete input. -/
theorem claim7_witness :
    (handleConnect (Blocker.New.UpdateBlacklist [("x").data]) (("x:443").data)
      true true).status = 403 ∧
    (handleConnect (Blocker.New.UpdateBlacklist [("x").data]) (("x:443").data)
      true true).dialed = false :=
  ⟨((claim7_connect_blocked (Blocker.New.UpdateBlacklist [("x").data])
      (("x:443").data) true true).1 (by decide)).1,
   ((claim7_connect_blocked (Blocker.New.UpdateBlacklist [("x").data])
      (("x:443").data) true true).1 (by decide)).2.1⟩

theorem isBlocked_counters (b : Blocker) (d : Str) :
    ((b.IsBlocked d).blocked = true →
      (b.IsBlocked d).post.blockedCount = wrapInt64 (b.blockedCount + 1) ∧
      (b.IsBlocked d).post.allowedCount = b.allowedCount) ∧
    ((b.IsBlocked d).blocked = false →
      (b.IsBlocked d).post.allowedCount = wrapInt64 (b.allowedCount + 1) ∧
      (b.IsBlocked d).post.blockedCount = b.blockedCount) :=
  decideLoop_counters b b.matchers (toLowerStr (trimSpace (cutLast d)))

theorem runOps_stats (ops : List Op) : ∀ b : Blocker,
    0 ≤ b.blockedCount → 0 ≤ b.allowedCount →
    b.blockedCount + ((countOutcomes b ops).1 : Int) < 2 ^ 63 →
    b.allowedCount + ((countOutcomes b ops).2 : Int) < 2 ^ 63 →
    (runOps b ops).blockedCount = b.blockedCount + ((countOutcomes b ops).1 : Int) ∧
    (runOps b ops).allowedCount = b.allowedCount + ((countOutcomes b ops).2 : Int) := by
  induction ops with
  | nil =>
    intro b _ _ _ _
    simp [runOps, countOutcomes]
  | cons op rest ih =>
    intro b hb0 ha0 hbB haB
    cases op with
    | decide d =>
      have h := isBlocked_counters b d
      by_cases hbl : (b.IsBlocked d).blocked = true
      · obtain ⟨e1, e2⟩ := h.1 hbl
        have hco : countOutcomes b (Op.decide d :: rest)
            = ((countOutcomes (b.IsBlocked d).post rest).1 + 1,
               (countOutcomes (b.IsBlocked d).post rest).2) := by
          simp only [countOutcomes, hbl, if_true]
        rw [hco] at hbB haB ⊢
        push_cast at hbB haB ⊢
        have ew : wrapInt64 (b.blockedCount + 1) = b.blockedCount + 1 :=
          wrapInt64_eq_self (by omega) (by omega)
        have ihr := ih ((b.IsBlocked d).post)
          (by rw [e1, ew]; omega) (by rw [e2]; omega)
          (by rw [e1, ew]; omega) (by rw [e2]; omega)
        simp only [runOps, applyOp]
        constructor
        · rw [ihr.1, e1, ew]
          ring
        · rw [ihr.2, e2]
      · simp only [Bool.not_eq_true] at hbl
        obtain ⟨e1, e2⟩ := h.2 hbl
        have hco : countOutcomes b (Op.decide d :: rest)
            = ((countOutcomes (b.IsBlocked d).post rest).1,
               (countOutcomes (b.IsBlocked d).post rest).2 + 1) := by
          simp only [countOutcomes, hbl, Bool.false_eq_true, if_false]
        rw [hco] at hbB haB ⊢
        push_cast at hbB haB ⊢
        have ew : wrapInt64 (b.allowedCount + 1) = b.allowedCount + 1 :=
          wrapInt64_eq_self (by omega) (by omega)
        have ihr := ih ((b.IsBlocked d).post)
          (by rw [e2]; omega) (by rw [e1, ew]; omega)
          (by rw [e2]; omega) (by rw [e1, ew]; omega)
        simp only [runOps, applyOp]
        constructor
        · rw [ihr.1, e2]
        · rw [ihr.2, e1, ew]
          ring
    | update ps =>
      have hco : countOutcomes b (Op.update ps :: rest)
          = countOutcomes (b.UpdateBlacklist ps) rest := by
        simp only [countOutcomes]
      rw [hco] at hbB haB ⊢
      simp only [runOps, applyOp]
      exact ih (b.UpdateBlacklist ps) hb0 ha0 hbB haB
    | setLogging lb la =>
      have hco : countOutcomes b (Op.setLogging lb la :: rest)
          = countOutcomes (b.SetLogging lb la) rest := by
        simp only [countOutcomes]
      rw [hco] at hbB haB ⊢
      simp only [runOps, applyOp]
      exact ih (b.SetLogging lb la) hb0 ha0 hbB haB

/-- Claim C6, amended. Every IsBlocked call updates exactly one of the two
int64 counters with a wrapping increment (blocked on a Blocked outcome,
allowed on an Allowed outcome) and leaves the other unchanged; the
increment is an exact plus-one, and both counters are monotonically
non-decreasing, whenever the incremented counter is still below 2^63 - 1
(the original claim held unconditionally, which int64 overflow falsifies,
see the counterexample); consequently after any operation sequence from a
fresh Blocker with fewer than 2^63 outcomes of each kind, Stats returns
exactly the number of Blocked outcomes and the number of Allowed
outcomes. -/
theorem claim6_counters (b : Blocker) (d : Str) (op : Op) (ops : List Op) :
    ((b.IsBlocked d).blocked = true →
        (b.IsBlocked d).post.blockedCount = wrapInt64 (b.blockedCount + 1) ∧
        (b.IsBlocked d).post.allowedCount = b.allowedCount) ∧
    ((b.IsBlocked d).blocked = false →
        (b.IsBlocked d).post.allowedCount = wrapInt64 (b.allowedCount + 1) ∧
        (b.IsBlocked d).post.blockedCount = b.blockedCount) ∧
    (0 ≤ b.blockedCount → b.blockedCount + 1 < 2 ^ 63 →
      (b.IsBlocked d).blocked = true →
        (b.IsBlocked d).post.blockedCount = b.blockedCount + 1) ∧
    (0 ≤ b.allowedCount → b.allowedCount + 1 < 2 ^ 63 →
      (b.IsBlocked d).blocked = false →
        (b.IsBlocked d).post.allowedCount = b.allowedCount + 1) ∧
    (((countOutcomes Blocker.New ops).1 : Int) < 2 ^ 63 →
     ((countOutcomes Blocker.New ops).2 : Int) < 2 ^ 63 →
      (runOps Blocker.New ops).Stats
        = (((countOutcomes Blocker.New ops).1 : Int),
           ((countOutcomes Blocker.New ops).2 : Int))) ∧
    (0 ≤ b.blockedCount → b.blockedCount + 1 < 2 ^ 63 →
     0 ≤ b.allowedCount → b.allowedCount + 1 < 2 ^ 63 →
      b.blockedCount ≤ (applyOp b op).blockedCount ∧
      b.allowedCount ≤ (applyOp b op).allowedCount) := by
  have h := isBlocked_counters b d
  refine ⟨h.1, h.2, ?_, ?_, ?_, ?_⟩
  · intro h0 hlt hbl
    rw [(h.1 hbl).1, wrapInt64_eq_self (by omega) hlt]
  · intro h0 hlt hbl
    rw [(h.2 hbl).1, wrapInt64_eq_self (by omega) hlt]
  · intro hbcap hacap
    have hz1 : Blocker.New.blockedCount = 0 := rfl
    have hz2 : Blocker.New.allowedCount = 0 := rfl
    have hr := runOps_stats ops Blocker.New (by rw [hz1]) (by rw [hz2])
      (by rw [hz1]; omega) (by rw [hz2]; omega)
    simp [Blocker.Stats, hr.1, hr.2, hz1, hz2]
  · intro hb0 hb1 ha0 ha1
    cases op with
    | decide dd =>
      have hdd := isBlocked_counters b dd
      by_cases hbl : (b.IsBlocked dd).blocked = true
      · obtain ⟨e1, e2⟩ := hdd.1 hbl
        have ew : wrapInt64 (b.blockedCount + 1) = b.blockedCount + 1 :=
          wrapInt64_eq_self (by omega) hb1
        simp only [applyOp, e1, e2, ew]
        omega
      · simp only [Bool.not_eq_true] at hbl
        obtain ⟨e1, e2⟩ := hdd.2 hbl
        have ew : wrapInt64 (b.allowedCount + 1) = b.allowedCount + 1 :=
          wrapInt64_eq_self (by omega) ha1
        simp only [applyOp, e1, e2, ew]
        omega
    | update ps => simp [applyOp, Blocker.UpdateBlacklist]
    | setLogging lb la => simp [applyOp, Blocker.SetLogging]

/-- Claim C6 counterexample: at allowedCount = 2^63 - 1, one more Allowed
outcome wraps the int64 counter to -2^63, so the counter strictly
decreases and Stats no longer equals the number of Allowed outcomes; the
original claim's unconditional monotonicity and exact-count statements are
therefore false on the int64 semantics of the Go code. -/
theorem claim6_counterexample :
    (((⟨[], true, false, 0, 9223372036854775807⟩ : Blocker)).IsBlocked
      (("x").data)).post.allowedCount
      < ((⟨[], true, false, 0, 9223372036854775807⟩ : Blocker)).allowedCount := by
  decide

/-- Claim C6 witness at a concrete input. -/
theorem claim6_witness :
    (Blocker.New.IsBlocked (("x").data)).post.allowedCount
      = Blocker.New.allowedCount + 1 :=
  ((claim6_counters Blocker.New (("x").data) (Op.decide (("x").data)) []).2.2.2.1
    (by decide) (by decide) (by decide))


theorem sysInv_init (old new : List Matcher) : SysInv old new (Sys.init old) := by
  refine ⟨by simp [Sys.init], ?_, ?_, ?_⟩
  · simp [Sys.init]
  · simp [Sys.init]
  · simp [Sys.init]

theorem sysInv_step {old new : List Matcher} {s s' : Sys}
    (hinv : SysInv old new s) (hstep : Step new s s') : SysInv old new s' := by
  obtain ⟨h1, h2, h3, h4⟩ := hinv
  cases hstep with
  | uAcquire h0 hr1 hr2 =>
    rw [h0] at h2
    simp only [Nat.zero_le, if_pos] at h2
    refine ⟨by simp; omega, by simpa using h2, fun _ => ⟨hr1, hr2⟩, h4⟩
  | uClear h0 =>
    refine ⟨by simp; omega, ?_, ?_, h4⟩
    · simp only []
      split_ifs with hc1 hc2
      · omega
      · omega
      · simp
    · intro _
      exact h3 ⟨by omega, by omega⟩
  | uAppend k hk h0 =>
    rw [h0] at h2 h3
    have hne1 : ¬ (2 + k ≤ 1) := by omega
    have hne2 : ¬ (2 + k = 3 + new.length) := by omega
    rw [if_neg hne1, if_neg hne2] at h2
    refine ⟨by simp; omega, ?_, ?_, h4⟩
    · simp only []
      split_ifs with hc1 hc2
      · omega
      · omega
      · rw [h2]
        have e1 : 2 + k - 2 = k := by omega
        have e2 : 3 + k - 2 = k + 1 := by omega
        rw [e1, e2]
        have := List.take_concat_get new k hk
        rw [List.concat_eq_append] at this
        exact this
    · intro _
      exact h3 ⟨by omega, by omega⟩
  | uRelease h0 =>
    rw [h0] at h2
    have hne1 : ¬ (2 + new.length ≤ 1) := by omega
    have hne2 : ¬ (2 + new.length = 3 + new.length) := by omega
    rw [if_neg hne1, if_neg hne2] at h2
    have hmn : s.matchers = new := by
      rw [h2]
      have : 2 + new.length - 2 = new.length := by omega
      rw [this, List.take_length]
    refine ⟨by simp, ?_, ?_, h4⟩
    · have hne : ¬ (3 + new.length ≤ 1) := by omega
      simp only [hmn]
      rw [if_neg hne]
      simp
    · intro hr
      simp at hr
  | rAcquire h0 hw =>
    refine ⟨h1, h2, fun hr => absurd hr hw, h4⟩
  | rObserve h0 =>
    have hout : ¬ (1 ≤ s.upc ∧ s.upc ≤ 2 + new.length) := by
      intro hr
      exact absurd h0 (h3 hr).1
    refine ⟨h1, h2, fun hr => absurd hr hout, ?_⟩
    have hcase : s.upc = 0 ∨ s.upc = 3 + new.length := by omega
    rcases hcase with hz | hdone
    · rw [hz] at h2
      simp only [Nat.zero_le, if_pos] at h2
      exact Or.inr (Or.inl (by simpa using congrArg some h2))
    · rw [hdone] at h2
      have hne1 : ¬ (3 + new.length ≤ 1) := by omega
      rw [if_neg hne1, if_pos rfl] at h2
      exact Or.inr (Or.inr (by simpa using congrArg some h2))
  | rRelease h0 =>
    refine ⟨h1, h2, fun hr => ⟨by simp, by simp⟩, h4⟩

/-- Claim C9. UpdateBlacklist compiles the entries (skipping blanks) into
a new rule set and installs it under the write lock while IsBlocked reads
under the read lock: in every interleaving of the two permitted by the
RWMutex discipline, the rule set a concurrent IsBlocked observes is either
the entire old list or the entire compiled new list, never a mixture. -/
theorem claim9_atomic_replace (old : List Matcher) (ps : List Str) (s : Sys)
    (h : Relation.ReflTransGen (Step (compilePatterns ps)) (Sys.init old) s) :
    s.observed = none ∨ s.observed = some old ∨ s.observed = some (compilePatterns ps) := by
  have hinv : SysInv old (compilePatterns ps) s := by
    induction h with
    | refl => exact sysInv_init old _
    | tail hsteps hstep ih => exact sysInv_step ih hstep
  exact hinv.2.2.2

/-- Claim C9 witness at a concrete input. -/
theorem claim9_witness :
    (Sys.init []).observed = none ∨ (Sys.init []).observed = some [] ∨
      (Sys.init []).observed = some (compilePatterns [("x").data]) :=
  claim9_atomic_replace [] [("x").data] (Sys.init []) Relation.ReflTransGen.refl
